import Mathlib

/-!
A verification development for the opportunity-board widget in src/app.js.

The embedding models JavaScript strings as lists of Unicode scalar values
(`JStr`), the module-level mutable state of app.js as an explicit `AppState`
record, and each event handler as a state-transition function. Browser
primitives that the source delegates to are modelled from their documented
behaviour where noted (JSON serialization, HTML text-node escaping,
String.prototype.trim); everything else is translated directly from app.js.
-/

namespace OppBoard

/-- JavaScript strings, as lists of Unicode scalar values. -/
abbrev JStr := List Char

/-- The left brace character, U+007B. -/
def lbrace : Char := '\x7b'

/-- The right brace character, U+007D. -/
def rbrace : Char := '\x7d'

/-- Modelled from the spec: the whitespace class of String.prototype.trim
(ECMAScript WhiteSpace plus LineTerminator); the source calls the built-in
`titleInput.value.trim()`, whose body is not in the repository. -/
def isJsWhitespace (c : Char) : Bool :=
  c.toNat = 0x9 || c.toNat = 0xA || c.toNat = 0xB || c.toNat = 0xC || c.toNat = 0xD
    || c.toNat = 0x20 || c.toNat = 0xA0 || c.toNat = 0x1680
    || (0x2000 ≤ c.toNat && c.toNat ≤ 0x200A)
    || c.toNat = 0x2028 || c.toNat = 0x2029 || c.toNat = 0x202F || c.toNat = 0x205F
    || c.toNat = 0x3000 || c.toNat = 0xFEFF

/-- Modelled from the spec: `s.trim()` removes leading and trailing
JavaScript whitespace. -/
def jsTrim (s : JStr) : JStr :=
  ((s.dropWhile isJsWhitespace).reverse.dropWhile isJsWhitespace).reverse

/-- One opportunity record, as built in `handleAddOpportunity`
(src/app.js lines 66-71). -/
structure Opportunity where
  id : Int
  title : JStr
  category : JStr
  saved : Bool
deriving Repr, DecidableEq

/-- The fixed local-storage key (src/app.js lines 10-11). -/
def STORAGE_KEY : JStr := "opportunityBoard-8480".toList

/-! ### JSON serialization (the storage adapter)

The source persists with `JSON.stringify(opportunities)` and reads back with
`JSON.parse(storedData)` (src/app.js lines 137-146). Both built-ins live in
the JavaScript engine, not the repository, so they are modelled here from
their specified behaviour, restricted to the fragment the application can
produce: numbers are integers (ids are `Date.now()` millisecond timestamps),
and the parser accepts the whitespace-free canonical texts that
`JSON.stringify` emits, plus enough of the general grammar to decide the
malformed-input behaviour of `loadFromStorage`. A failed parse models the
`SyntaxError` that `JSON.parse` throws.
-/

/-- The decimal digit character for `n < 10`. -/
def digitChar (n : Nat) : Char := Char.ofNat (48 + n)

/-- The lowercase hexadecimal digit character for `n < 16`. -/
def hexDigitCh (n : Nat) : Char :=
  if n < 10 then Char.ofNat (48 + n) else Char.ofNat (87 + n)

/-- Decimal digits of `n`, most significant first, with explicit fuel
(any fuel of at least `n + 1` is enough). -/
def natDigitsAux : Nat → Nat → List Char
  | 0, _ => []
  | fuel + 1, n =>
    if n < 10 then [digitChar n] else natDigitsAux fuel (n / 10) ++ [digitChar (n % 10)]

/-- Decimal digits of `n`, most significant first, as emitted for a
JavaScript integer. -/
def natDigits (n : Nat) : List Char := natDigitsAux (n + 1) n

/-- The characters of an integer: optional minus sign, then decimal digits. -/
def intChars (i : Int) : List Char :=
  (if i < 0 then ['-'] else []) ++ natDigits i.natAbs

/-- One character of a JSON string value, escaped as `JSON.stringify`
escapes it: quote, backslash, the named control escapes, then `\u00XX` for
the remaining control characters. -/
def escapeJsonChar (c : Char) : List Char :=
  if c = '"' then ['\\', '"']
  else if c = '\\' then ['\\', '\\']
  else if c = '\x08' then ['\\', 'b']
  else if c = '\x0c' then ['\\', 'f']
  else if c = '\n' then ['\\', 'n']
  else if c = '\r' then ['\\', 'r']
  else if c = '\t' then ['\\', 't']
  else if c.toNat < 32 then
    ['\\', 'u', '0', '0', hexDigitCh (c.toNat / 16), hexDigitCh (c.toNat % 16)]
  else [c]

/-- A JSON string literal: quote, escaped body, quote. -/
def jsonQuote (s : JStr) : JStr := '"' :: (s.flatMap escapeJsonChar ++ ['"'])

/-- The canonical text `JSON.stringify` produces for one opportunity record:
the four fields in insertion order, comma-separated, no whitespace. -/
def printOpp (op : Opportunity) : JStr :=
  lbrace :: ("\"id\":".toList ++ (intChars op.id
    ++ (',' :: ("\"title\":".toList ++ (jsonQuote op.title
    ++ (',' :: ("\"category\":".toList ++ (jsonQuote op.category
    ++ (',' :: ("\"saved\":".toList
    ++ ((if op.saved then "true".toList else "false".toList) ++ [rbrace])))))))))))

/-- Comma-separated array items of the canonical text. -/
def printItems : List Opportunity → JStr
  | [] => []
  | [op] => printOpp op
  | op :: rest => printOpp op ++ ',' :: printItems rest

/-- Modelled from the spec: `JSON.stringify(opportunities)`, the single
persisted blob (src/app.js line 138); the serializer itself is an engine
built-in, modelled here by its specified output for this data. -/
def jsonStringifyOpps (l : List Opportunity) : JStr :=
  '[' :: (printItems l ++ [']'])

/-- A parsed JSON value (numbers restricted to the integer fragment). -/
inductive Json where
  | jnull
  | jbool (b : Bool)
  | jnum (i : Int)
  | jstr (s : JStr)
  | jarr (xs : List Json)
  | jobj (fields : List (JStr × Json))
deriving Repr

/-- JSON insignificant whitespace. -/
def isJsonWs (c : Char) : Bool := c = ' ' || c = '\t' || c = '\n' || c = '\r'

/-- Drop leading JSON whitespace. -/
def skipWs : List Char → List Char
  | c :: cs => if isJsonWs c then skipWs cs else c :: cs
  | [] => []

/-- Is `c` a decimal digit character. -/
def isDigitCh (c : Char) : Bool := '0' ≤ c && c ≤ '9'

/-- Split off the longest leading run of decimal digits. -/
def takeDigits : List Char → List Char × List Char
  | c :: cs =>
    if isDigitCh c then
      let (ds, r) := takeDigits cs
      (c :: ds, r)
    else ([], c :: cs)
  | [] => ([], [])

/-- The value of a digit run, most significant first. -/
def digitsToNat (ds : List Char) : Nat :=
  ds.foldl (fun a c => a * 10 + (c.toNat - 48)) 0

/-- Parse an integer token: optional minus sign, then at least one digit. -/
def parseIntTok (cs : List Char) : Option (Int × List Char) :=
  match cs with
  | '-' :: r =>
    match takeDigits r with
    | ([], _) => none
    | (ds, r') => some (-(digitsToNat ds : Int), r')
  | _ =>
    match takeDigits cs with
    | ([], _) => none
    | (ds, r') => some ((digitsToNat ds : Int), r')

/-- The value of a hexadecimal digit character, if it is one. -/
def hexValCh (c : Char) : Option Nat :=
  if '0' ≤ c && c ≤ '9' then some (c.toNat - 48)
  else if 'a' ≤ c && c ≤ 'f' then some (c.toNat - 87)
  else if 'A' ≤ c && c ≤ 'F' then some (c.toNat - 55)
  else none

/-- The character a single-letter JSON escape denotes. -/
def unescapeCh (c : Char) : Option Char :=
  if c = '"' then some '"'
  else if c = '\\' then some '\\'
  else if c = '/' then some '/'
  else if c = 'b' then some '\x08'
  else if c = 'f' then some '\x0c'
  else if c = 'n' then some '\n'
  else if c = 'r' then some '\r'
  else if c = 't' then some '\t'
  else none

/-- Parse a JSON string body after the opening quote, up to and including
the closing quote. Unescaped control characters are rejected, as
`JSON.parse` rejects them. -/
def parseStrBody : List Char → Option (JStr × List Char)
  | [] => none
  | '"' :: rest => some ([], rest)
  | '\\' :: rest =>
    match rest with
    | 'u' :: a :: b :: c :: d :: r =>
      match hexValCh a, hexValCh b, hexValCh c, hexValCh d with
      | some va, some vb, some vc, some vd =>
        match parseStrBody r with
        | some (s, r') => some (Char.ofNat (((va * 16 + vb) * 16 + vc) * 16 + vd) :: s, r')
        | none => none
      | _, _, _, _ => none
    | e :: r =>
      match unescapeCh e with
      | some ch =>
        match parseStrBody r with
        | some (s, r') => some (ch :: s, r')
        | none => none
      | none => none
    | [] => none
  | c :: rest =>
    if c.toNat < 32 then none
    else
      match parseStrBody rest with
      | some (s, r') => some (c :: s, r')
      | none => none

mutual

/-- Parse one JSON value (the recursion is on the explicit fuel; the fuel
used by `jsonParse` always suffices because every step consumes input). -/
def parseVal : Nat → List Char → Option (Json × List Char)
  | 0, _ => none
  | fuel + 1, cs =>
    match skipWs cs with
    | 'n' :: 'u' :: 'l' :: 'l' :: r => some (.jnull, r)
    | 't' :: 'r' :: 'u' :: 'e' :: r => some (.jbool true, r)
    | 'f' :: 'a' :: 'l' :: 's' :: 'e' :: r => some (.jbool false, r)
    | '"' :: r =>
      match parseStrBody r with
      | some (s, r') => some (.jstr s, r')
      | none => none
    | '[' :: r =>
      (match skipWs r with
       | ']' :: r' => some (.jarr [], r')
       | cs' =>
         match parseItems fuel cs' with
         | some (xs, r') => some (.jarr xs, r')
         | none => none)
    | c :: r =>
      if c = lbrace then
        (match skipWs r with
         | [] => none
         | c' :: r' =>
           if c' = rbrace then some (.jobj [], r')
           else
             match parseFields fuel (c' :: r') with
             | some (fs, r'') => some (.jobj fs, r'')
             | none => none)
      else if c = '-' || isDigitCh c then
        match parseIntTok (c :: r) with
        | some (i, r') => some (.jnum i, r')
        | none => none
      else none
    | [] => none

/-- Parse one or more comma-separated array items and the closing bracket. -/
def parseItems : Nat → List Char → Option (List Json × List Char)
  | 0, _ => none
  | fuel + 1, cs =>
    match parseVal fuel cs with
    | none => none
    | some (v, r) =>
      match skipWs r with
      | ',' :: r' =>
        (match parseItems fuel r' with
         | some (vs, r'') => some (v :: vs, r'')
         | none => none)
      | ']' :: r' => some ([v], r')
      | _ => none

/-- Parse one or more comma-separated object members and the closing brace. -/
def parseFields : Nat → List Char → Option (List (JStr × Json) × List Char)
  | 0, _ => none
  | fuel + 1, cs =>
    match skipWs cs with
    | '"' :: r =>
      (match parseStrBody r with
       | none => none
       | some (k, r1) =>
         match skipWs r1 with
         | ':' :: r2 =>
           (match parseVal fuel r2 with
            | none => none
            | some (v, r3) =>
              match skipWs r3 with
              | ',' :: r4 =>
                (match parseFields fuel r4 with
                 | some (fs, r5) => some ((k, v) :: fs, r5)
                 | none => none)
              | c :: r4 => if c = rbrace then some ([(k, v)], r4) else none
              | [] => none)
         | _ => none)
    | _ => none

end

/-- Modelled from the spec: `JSON.parse(text)`, an engine built-in, modelled
by the JSON grammar in the integer-number fragment; `none` models the thrown
`SyntaxError`. -/
def jsonParse (s : JStr) : Option Json :=
  match parseVal (s.length + 1) s with
  | some (v, r) => if skipWs r = [] then some v else none
  | none => none

/-- The JSON value `JSON.stringify` reads one opportunity record as. -/
def encodeOpp (op : Opportunity) : Json :=
  .jobj [("id".toList, .jnum op.id), ("title".toList, .jstr op.title),
         ("category".toList, .jstr op.category), ("saved".toList, .jbool op.saved)]

/-- The record-list shape the application itself writes; the source assigns
the parsed value to `opportunities` without any validation, so this decoder
expresses the typing of that assignment in the embedding. -/
def decodeOpp (j : Json) : Option Opportunity :=
  match j with
  | .jobj [(k1, .jnum i), (k2, .jstr t), (k3, .jstr c), (k4, .jbool b)] =>
    if k1 = "id".toList ∧ k2 = "title".toList ∧ k3 = "category".toList ∧ k4 = "saved".toList
    then some ⟨i, t, c, b⟩ else none
  | _ => none

/-- Decode every element of a parsed array. -/
def decodeOppList : List Json → Option (List Opportunity)
  | [] => some []
  | x :: xs =>
    match decodeOpp x, decodeOppList xs with
    | some o, some l => some (o :: l)
    | _, _ => none

/-- Decode a parsed JSON value as the persisted opportunity list. -/
def decodeOpps (j : Json) : Option (List Opportunity) :=
  match j with
  | .jarr xs => decodeOppList xs
  | _ => none

/-- The observable outcome of `loadFromStorage` (src/app.js lines 141-146). -/
inductive LoadOutcome where
  | ok (l : List Opportunity)
  | thrown
  | illtyped (v : Json)
deriving Repr

/-- `loadFromStorage()` (src/app.js lines 141-146): when nothing is stored,
`opportunities` keeps its initial `[]`; when something is stored it is the
result of `JSON.parse`, assigned with no validation and no exception
handler. `.thrown` models the uncaught `SyntaxError` of a failed parse;
`.illtyped v` models the assignment of a parsed value that is not an
opportunity list (untypable in the embedding, observable as later
misbehaviour). -/
def loadFromStorage (stored : Option JStr) : LoadOutcome :=
  match stored with
  | none => .ok []
  | some s =>
    match jsonParse s with
    | none => .thrown
    | some v =>
      match decodeOpps v with
      | some l => .ok l
      | none => .illtyped v

/-! ### The view renderer -/

/-- Modelled from the spec: one character of text as the browser serializes
it inside a text node, replacing the markup-significant characters by
character references. -/
def escapeHTMLChar (c : Char) : List Char :=
  if c = '&' then "&amp;".toList
  else if c = '<' then "&lt;".toList
  else if c = '>' then "&gt;".toList
  else [c]

/-- Modelled from the spec: the source escapes by round-tripping the text
through a DOM text node (`createTextNode` then `innerHTML`, src/app.js
lines 164-168); the browser serialization this delegates to replaces the
markup-significant characters by character references. -/
def escapeHTML (s : JStr) : JStr :=
  s.flatMap escapeHTMLChar

/-- Modelled from the spec: the text a browser displays for escaped card
markup, that is, its interpretation of the character references `escapeHTML`
emits. -/
def htmlTextDecode : List Char → List Char
  | '&' :: 'a' :: 'm' :: 'p' :: ';' :: r => '&' :: htmlTextDecode r
  | '&' :: 'l' :: 't' :: ';' :: r => '<' :: htmlTextDecode r
  | '&' :: 'g' :: 't' :: ';' :: r => '>' :: htmlTextDecode r
  | c :: r => c :: htmlTextDecode r
  | [] => []

/-- One rendered card element (src/app.js lines 108-122): its class, its
`data-id` attribute, and its inner markup. -/
structure Card where
  className : JStr
  dataId : Int
  html : JStr
deriving Repr, DecidableEq

/-- The inner markup of a card, exactly as the template literal in
`createOpportunityCard` builds it. -/
def cardInnerHTML (op : Opportunity) : JStr :=
  "\n        <h3>".toList ++ escapeHTML op.title
    ++ "</h3>\n        <p class=\"card-details\">Category: ".toList ++ escapeHTML op.category
    ++ "</p>\n        <button class=\"".toList
    ++ (if op.saved then "card-action-btn remove-btn".toList else "card-action-btn save-btn".toList)
    ++ "\">".toList
    ++ (if op.saved then "Remove".toList else "Save".toList)
    ++ "</button>\n    ".toList

/-- `createOpportunityCard(opportunity)` (src/app.js lines 108-122). The
`data-id` attribute holds the record id (stored as its decimal text in the
DOM and read back with `parseInt(card.dataset.id, 10)`, which is the
identity on these integer ids). -/
def createOpportunityCard (op : Opportunity) : Card :=
  ⟨"opportunity-card".toList, op.id, cardInnerHTML op⟩

/-- The filter sentinel accepting every category. -/
def allFilter : JStr := "all".toList

/-- The predicate of `opportunities.filter` in `render` (src/app.js
lines 87-90). -/
def visibleFilter (filter : JStr) (op : Opportunity) : Bool :=
  if filter = allFilter then true else op.category = filter

/-- The render loop (src/app.js lines 95-102): walk the filtered records in
order, appending each card to the available or the saved container. -/
def renderLoop : List Opportunity → List Card × List Card → List Card × List Card
  | [], acc => acc
  | op :: rest, acc =>
    let cardElement := createOpportunityCard op
    if op.saved then renderLoop rest (acc.1, acc.2 ++ [cardElement])
    else renderLoop rest (acc.1 ++ [cardElement], acc.2)

/-- `updateCounter()` (src/app.js lines 124-127): the counter text, built
from the entire list. -/
def updateCounter (l : List Opportunity) : JStr :=
  natDigits l.length ++ " opportunities (".toList
    ++ natDigits (l.filter (fun op => op.saved)).length ++ " saved)".toList

/-- The rendered view: the two card containers, the counter text, and the
value of the filter control marked active (src/app.js lines 86-133). -/
structure RenderOut where
  availableList : List Card
  savedList : List Card
  counter : JStr
  activeFilter : JStr
deriving Repr, DecidableEq

/-- `render()` as a pure projection of (list, filter) (src/app.js
lines 86-106): filter the list, partition the cards, rebuild the counter
and the active-filter marking. -/
def renderView (l : List Opportunity) (filter : JStr) : RenderOut :=
  let filteredOpportunities := l.filter (visibleFilter filter)
  let (a, s) := renderLoop filteredOpportunities ([], [])
  ⟨a, s, updateCounter l, filter⟩

/-! ### The store and its event handlers -/

/-- The module-level mutable state of app.js together with its observable
surfaces: the record list and current filter (lines 13-14), the two text
inputs, the single local-storage cell under `STORAGE_KEY`, the error
region (visibility and text), and the rendered view. -/
structure AppState where
  opportunities : List Opportunity
  currentFilter : JStr
  titleInput : JStr
  typeInput : JStr
  storage : Option JStr
  errorVisible : Bool
  errorText : JStr
  rendered : RenderOut
deriving Repr, DecidableEq

/-- `showError(message)` (src/app.js lines 155-158): set the text and show
the region. -/
def showError (message : JStr) (s : AppState) : AppState :=
  { s with errorText := message, errorVisible := true }

/-- `hideError()` (src/app.js lines 160-162): hide the region; the text is
left as it was. -/
def hideError (s : AppState) : AppState :=
  { s with errorVisible := false }

/-- `saveToStorage()` (src/app.js lines 137-139): overwrite the stored blob
with the serialization of the current list. -/
def saveToStorage (s : AppState) : AppState :=
  { s with storage := some (jsonStringifyOpps s.opportunities) }

/-- `render()` as a state step: recompute the rendered view from the
current list and filter. -/
def render (s : AppState) : AppState :=
  { s with rendered := renderView s.opportunities s.currentFilter }

/-- `saveAndRender()` (src/app.js lines 148-151): persist, then re-render. -/
def saveAndRender (s : AppState) : AppState :=
  render (saveToStorage s)

/-- The validation message of `handleAddOpportunity`. -/
def errEmptyTitle : JStr := "Opportunity title cannot be empty.".toList

/-- `handleAddOpportunity()` (src/app.js lines 56-76), with `Date.now()`
passed in as `now`: reject a whitespace-only title with an error message;
otherwise clear the error, append the new record, clear the title input,
and persist-and-render. -/
def handleAddOpportunity (now : Int) (s : AppState) : AppState :=
  let title := jsTrim s.titleInput
  if title = [] then showError errEmptyTitle s
  else
    let s1 := hideError s
    let newOpportunity : Opportunity := ⟨now, title, s1.typeInput, false⟩
    saveAndRender { s1 with opportunities := s1.opportunities ++ [newOpportunity],
                            titleInput := [] }

/-- The in-place flip of the first record with the given id, the net effect
of mutating the record `opportunities.find` returns (src/app.js line 81). -/
def toggleFirst (id : Int) : List Opportunity → List Opportunity
  | [] => []
  | op :: rest =>
    if op.id = id then { op with saved := !op.saved } :: rest
    else op :: toggleFirst id rest

/-- `toggleSavedStatus(id)` (src/app.js lines 78-84): if some record has
the id, flip its `saved` flag and persist-and-render; otherwise do
nothing. -/
def toggleSavedStatus (id : Int) (s : AppState) : AppState :=
  match s.opportunities.find? (fun op => op.id = id) with
  | some _ => saveAndRender { s with opportunities := toggleFirst id s.opportunities }
  | none => s

/-- The filter-control click handler (src/app.js lines 47-53): set the
current filter, then re-render only. -/
def setFilterClick (value : JStr) (s : AppState) : AppState :=
  render { s with currentFilter := value }

/-- The module state as of script load: empty list, filter `all`, empty
inputs, nothing in this page session written to storage yet, error region
hidden with no text, and the view of the empty list. -/
def initialState : AppState :=
  { opportunities := [], currentFilter := allFilter, titleInput := [], typeInput := [],
    storage := none, errorVisible := false, errorText := [],
    rendered := renderView [] allFilter }

/-- One user add gesture: what is typed into the two inputs, and the clock
value `Date.now()` returns when the Add button is clicked. -/
structure AddCmd where
  now : Int
  title : JStr
  category : JStr
deriving Repr, DecidableEq

/-- A sequence of add gestures: each fills the inputs, then clicks Add. -/
def runAdds (cmds : List AddCmd) (s : AppState) : AppState :=
  cmds.foldl
    (fun st c => handleAddOpportunity c.now { st with titleInput := c.title, typeInput := c.category })
    s

/-- Does the input not continue a digit run: empty, or headed by a
non-digit. -/
def digitsEnd (cs : List Char) : Bool :=
  match cs with
  | [] => true
  | c :: _ => !isDigitCh c

/-! ### Lemmas on decimal digit runs -/

theorem digitChar_spec (k : Nat) (h : k < 10) :
    (digitChar k).toNat = 48 + k ∧ isDigitCh (digitChar k) = true := by
  have hall : ∀ m < 10, (digitChar m).toNat = 48 + m ∧ isDigitCh (digitChar m) = true := by
    decide
  exact hall k h

theorem natDigitsAux_digits :
    ∀ fuel n, n < fuel → ∀ c ∈ natDigitsAux fuel n, isDigitCh c = true := by
  intro fuel
  induction fuel with
  | zero => intro n h; omega
  | succ f ih =>
    intro n h c hc
    rw [natDigitsAux] at hc
    by_cases h10 : n < 10
    · rw [if_pos h10, List.mem_singleton] at hc
      subst hc
      exact (digitChar_spec n h10).2
    · rw [if_neg h10, List.mem_append] at hc
      rcases hc with hmem | hmem
      · exact ih (n / 10) (by omega) c hmem
      · rw [List.mem_singleton] at hmem
        subst hmem
        exact (digitChar_spec (n % 10) (by omega)).2

theorem natDigitsAux_ne_nil : ∀ fuel n, n < fuel → natDigitsAux fuel n ≠ [] := by
  intro fuel
  induction fuel with
  | zero => intro n h; omega
  | succ f ih =>
    intro n h
    rw [natDigitsAux]
    by_cases h10 : n < 10
    · simp [h10]
    · simp [h10]

theorem natDigitsAux_foldl :
    ∀ fuel n a, n < fuel →
      (natDigitsAux fuel n).foldl (fun x c => x * 10 + (c.toNat - 48)) a
        = a * 10 ^ (natDigitsAux fuel n).length + n := by
  intro fuel
  induction fuel with
  | zero => intro n a h; omega
  | succ f ih =>
    intro n a h
    rw [natDigitsAux]
    by_cases h10 : n < 10
    · rw [if_pos h10]
      simp [List.foldl, (digitChar_spec n h10).1]
    · rw [if_neg h10]
      rw [List.foldl_append, ih (n / 10) a (by omega)]
      have hmod := (digitChar_spec (n % 10) (by omega)).1
      simp only [List.foldl_cons, List.foldl_nil, List.length_append, List.length_singleton, hmod]
      rw [pow_succ, ← mul_assoc]
      generalize a * 10 ^ (natDigitsAux f (n / 10)).length = m
      omega

theorem natDigits_digits (n : Nat) : ∀ c ∈ natDigits n, isDigitCh c = true :=
  natDigitsAux_digits (n + 1) n (by omega)

theorem natDigits_ne_nil (n : Nat) : natDigits n ≠ [] :=
  natDigitsAux_ne_nil (n + 1) n (by omega)

theorem digitsToNat_natDigits (n : Nat) : digitsToNat (natDigits n) = n := by
  rw [digitsToNat, natDigits, natDigitsAux_foldl (n + 1) n 0 (by omega)]
  simp

theorem natDigits_cons (n : Nat) :
    ∃ c t, natDigits n = c :: t ∧ isDigitCh c = true := by
  match h : natDigits n with
  | [] => exact absurd h (natDigits_ne_nil n)
  | c :: t => exact ⟨c, t, rfl, natDigits_digits n c (h ▸ List.mem_cons_self ..)⟩

theorem takeDigits_stop {cs : List Char} (h : digitsEnd cs = true) :
    takeDigits cs = ([], cs) := by
  match cs with
  | [] => rfl
  | c :: t =>
    simp only [digitsEnd, Bool.not_eq_true'] at h
    simp [takeDigits, h]

theorem takeDigits_run (ds : List Char) (hds : ∀ c ∈ ds, isDigitCh c = true)
    (rest : List Char) (hrest : digitsEnd rest = true) :
    takeDigits (ds ++ rest) = (ds, rest) := by
  induction ds with
  | nil => simpa using takeDigits_stop hrest
  | cons c t ih =>
    have hc : isDigitCh c = true := hds c (by simp)
    have ht := ih fun x hx => hds x (by simp [hx])
    simp [takeDigits, hc, ht]

theorem parseIntTok_intChars (i : Int) (rest : List Char) (hr : digitsEnd rest = true) :
    parseIntTok (intChars i ++ rest) = some (i, rest) := by
  obtain ⟨c, t, hct, hc⟩ := natDigits_cons i.natAbs
  have htd : takeDigits (natDigits i.natAbs ++ rest) = (natDigits i.natAbs, rest) :=
    takeDigits_run _ (natDigits_digits _) rest hr
  have hval := digitsToNat_natDigits i.natAbs
  by_cases hi : i < 0
  · have hshape : intChars i ++ rest = '-' :: (natDigits i.natAbs ++ rest) := by
      simp [intChars, hi]
    rw [hshape]
    show (match takeDigits (natDigits i.natAbs ++ rest) with
          | ([], _) => none
          | (ds, r') => some (-(digitsToNat ds : Int), r')) = some (i, rest)
    rw [htd, hct]
    show some (-(digitsToNat (c :: t) : Int), rest) = some (i, rest)
    rw [← hct, hval, Int.ofNat_natAbs_of_nonpos (by omega), neg_neg]
  · have hshape : intChars i ++ rest = natDigits i.natAbs ++ rest := by
      simp [intChars, hi]
    rw [hshape, hct, List.cons_append]
    have hcm : c ≠ '-' := by
      intro hcc
      subst hcc
      exact absurd hc (by decide)
    rw [parseIntTok.eq_def]
    split
    · rename_i r heq
      exact absurd (List.head_eq_of_cons_eq heq.symm).symm hcm
    · rename_i hne
      have htd' : takeDigits (c :: (t ++ rest)) = (c :: t, rest) := by
        rw [← List.cons_append, ← hct]
        exact htd
      rw [htd']
      show some ((digitsToNat (c :: t) : Int), rest) = some (i, rest)
      have hvv : digitsToNat (c :: t) = i.natAbs := by rw [← hct, hval]
      rw [hvv, Int.natAbs_of_nonneg (by omega)]

/-! ### Lemmas on the parser -/

theorem skipWs_cons {c : Char} {t : List Char} (h : isJsonWs c = false) :
    skipWs (c :: t) = c :: t := by
  simp [skipWs, h]

theorem isDigitCh_facts {c : Char} (hc : isDigitCh c = true) :
    isJsonWs c = false ∧ c ≠ 'n' ∧ c ≠ 't' ∧ c ≠ 'f' ∧ c ≠ '"' ∧ c ≠ '['
      ∧ c ≠ lbrace ∧ c ≠ '-' := by
  have hws : isJsonWs c = false := by
    cases hx : isJsonWs c
    · rfl
    · exfalso
      simp [isJsonWs] at hx
      rcases hx with ((h | h) | h) | h <;> (subst h; exact absurd hc (by decide))
  refine ⟨hws, ?_, ?_, ?_, ?_, ?_, ?_, ?_⟩ <;>
    (intro h; subst h; exact absurd hc (by decide))

theorem parseVal_dispatch_num (f : Nat) (c : Char) (t : List Char)
    (hws : isJsonWs c = false)
    (h1 : c ≠ 'n') (h2 : c ≠ 't') (h3 : c ≠ 'f') (h4 : c ≠ '"') (h5 : c ≠ '[')
    (h6 : c ≠ lbrace) (h7 : (c = '-' || isDigitCh c) = true) :
    parseVal (f + 1) (c :: t)
      = (match parseIntTok (c :: t) with
         | some (i, r') => some (.jnum i, r')
         | none => none) := by
  have hsk : skipWs (c :: t) = c :: t := skipWs_cons hws
  simp only [parseVal, hsk]
  split
  · rename_i heq; exact absurd (List.head_eq_of_cons_eq heq) h1
  · rename_i heq; exact absurd (List.head_eq_of_cons_eq heq) h2
  · rename_i heq; exact absurd (List.head_eq_of_cons_eq heq) h3
  · rename_i heq; exact absurd (List.head_eq_of_cons_eq heq) h4
  · rename_i heq; exact absurd (List.head_eq_of_cons_eq heq) h5
  · rename_i heq
    rw [← List.head_eq_of_cons_eq heq, ← List.tail_eq_of_cons_eq heq]
    rw [if_neg h6, if_pos h7]
  · rename_i heq; exact absurd heq (by simp)

theorem parseVal_int (f : Nat) (i : Int) (rest : List Char) (hr : digitsEnd rest = true) :
    parseVal (f + 1) (intChars i ++ rest) = some (.jnum i, rest) := by
  by_cases hi : i < 0
  · have hshape : intChars i ++ rest = '-' :: (natDigits i.natAbs ++ rest) := by
      simp [intChars, hi]
    rw [hshape]
    show (match parseIntTok ('-' :: (natDigits i.natAbs ++ rest)) with
          | some (j, r') => some (Json.jnum j, r')
          | none => none) = some (Json.jnum i, rest)
    rw [show '-' :: (natDigits i.natAbs ++ rest) = intChars i ++ rest from hshape.symm]
    rw [parseIntTok_intChars i rest hr]
  · obtain ⟨c, t, hct, hc⟩ := natDigits_cons i.natAbs
    obtain ⟨hws, h1, h2, h3, h4, h5, h6, h7⟩ := isDigitCh_facts hc
    have hshape : intChars i ++ rest = c :: (t ++ rest) := by
      simp [intChars, hi, hct]
    rw [hshape]
    rw [parseVal_dispatch_num f c (t ++ rest) hws h1 h2 h3 h4 h5 h6 (by simp [hc])]
    rw [show c :: (t ++ rest) = intChars i ++ rest from hshape.symm]
    rw [parseIntTok_intChars i rest hr]

theorem hexValCh_hexDigitCh (k : Nat) (h : k < 16) : hexValCh (hexDigitCh k) = some k := by
  have hall : ∀ m < 16, hexValCh (hexDigitCh m) = some m := by decide
  exact hall k h

theorem parseStrBody_cons_plain {c : Char} (hq : c ≠ '"') (hb : c ≠ '\\')
    (hctrl : ¬ c.toNat < 32) (rest : List Char) :
    parseStrBody (c :: rest)
      = ((parseStrBody rest).map fun p => (c :: p.1, p.2)) := by
  rw [parseStrBody.eq_def]
  split
  · rename_i heq; exact absurd (List.cons_ne_nil c rest) (by simp [heq])
  · rename_i heq; exact absurd (List.head_eq_of_cons_eq heq) hq
  · rename_i heq; exact absurd (List.head_eq_of_cons_eq heq) hb
  · rename_i heq
    rw [← List.head_eq_of_cons_eq heq, ← List.tail_eq_of_cons_eq heq]
    rw [if_neg hctrl]
    cases hp : parseStrBody rest with
    | none => simp
    | some p => simp

theorem parseStrBody_escape (c : Char) (rest : List Char) :
    parseStrBody (escapeJsonChar c ++ rest)
      = ((parseStrBody rest).map fun p => (c :: p.1, p.2)) := by
  rw [escapeJsonChar.eq_def]
  by_cases hq : c = '"'
  · subst hq
    rw [if_pos rfl]
    cases hp : parseStrBody rest with
    | none => simp [parseStrBody, unescapeCh, hp]
    | some p => simp [parseStrBody, unescapeCh, hp]
  · rw [if_neg hq]
    by_cases hb : c = '\\'
    · subst hb
      rw [if_pos rfl]
      cases hp : parseStrBody rest with
      | none => simp [parseStrBody, unescapeCh, hp]
      | some p => simp [parseStrBody, unescapeCh, hp]
    · rw [if_neg hb]
      by_cases h08 : c = '\x08'
      · subst h08
        rw [if_pos rfl]
        cases hp : parseStrBody rest with
        | none => simp [parseStrBody, unescapeCh, hp]
        | some p => simp [parseStrBody, unescapeCh, hp]
      · rw [if_neg h08]
        by_cases h0c : c = '\x0c'
        · subst h0c
          rw [if_pos rfl]
          cases hp : parseStrBody rest with
          | none => simp [parseStrBody, unescapeCh, hp]
          | some p => simp [parseStrBody, unescapeCh, hp]
        · rw [if_neg h0c]
          by_cases h0a : c = '\n'
          · subst h0a
            rw [if_pos rfl]
            cases hp : parseStrBody rest with
            | none => simp [parseStrBody, unescapeCh, hp]
            | some p => simp [parseStrBody, unescapeCh, hp]
          · rw [if_neg h0a]
            by_cases h0d : c = '\r'
            · subst h0d
              rw [if_pos rfl]
              cases hp : parseStrBody rest with
              | none => simp [parseStrBody, unescapeCh, hp]
              | some p => simp [parseStrBody, unescapeCh, hp]
            · rw [if_neg h0d]
              by_cases h09 : c = '\t'
              · subst h09
                rw [if_pos rfl]
                cases hp : parseStrBody rest with
                | none => simp [parseStrBody, unescapeCh, hp]
                | some p => simp [parseStrBody, unescapeCh, hp]
              · rw [if_neg h09]
                by_cases hctrl : c.toNat < 32
                · rw [if_pos hctrl]
                  have hdiv : c.toNat / 16 < 16 := by omega
                  have hmod : c.toNat % 16 < 16 := by omega
                  show parseStrBody ('\\' :: 'u' :: '0' :: '0'
                      :: hexDigitCh (c.toNat / 16) :: hexDigitCh (c.toNat % 16) :: rest) = _
                  rw [parseStrBody]
                  rw [show hexValCh '0' = some 0 from rfl,
                      hexValCh_hexDigitCh _ hdiv, hexValCh_hexDigitCh _ hmod]
                  show (match parseStrBody rest with
                        | some (s, r') =>
                          some (Char.ofNat (((0 * 16 + 0) * 16 + c.toNat / 16) * 16
                            + c.toNat % 16) :: s, r')
                        | none => none)
                      = ((parseStrBody rest).map fun p => (c :: p.1, p.2))
                  have hval : ((0 * 16 + 0) * 16 + c.toNat / 16) * 16 + c.toNat % 16 = c.toNat := by
                    omega
                  rw [hval, Char.ofNat_toNat]
                  cases hp : parseStrBody rest with
                  | none => rfl
                  | some p => obtain ⟨a, b⟩ := p; rfl
                · rw [if_neg hctrl]
                  show parseStrBody (c :: rest) = _
                  exact parseStrBody_cons_plain hq hb hctrl rest

theorem parseStrBody_quote (s : JStr) (rest : List Char) :
    parseStrBody (s.flatMap escapeJsonChar ++ '"' :: rest) = some (s, rest) := by
  induction s with
  | nil => rfl
  | cons c t ih =>
    rw [List.flatMap_cons, List.append_assoc, parseStrBody_escape, ih]
    rfl

theorem parseVal_str (f : Nat) (s : JStr) (rest : List Char) :
    parseVal (f + 1) (jsonQuote s ++ rest) = some (.jstr s, rest) := by
  have hshape : jsonQuote s ++ rest = '"' :: (s.flatMap escapeJsonChar ++ '"' :: rest) := by
    simp [jsonQuote]
  rw [hshape]
  show (match parseStrBody (s.flatMap escapeJsonChar ++ '"' :: rest) with
        | some (sv, r') => some (Json.jstr sv, r')
        | none => none) = some (Json.jstr s, rest)
  rw [parseStrBody_quote]

theorem parseFields_saved (f : Nat) (b : Bool) (rest : List Char) :
    parseFields (f + 2)
      ("\"saved\":".toList ++ ((if b then "true".toList else "false".toList) ++ (rbrace :: rest)))
      = some ([("saved".toList, Json.jbool b)], rest) := by
  cases b
  · rfl
  · rfl

theorem parseFields_category (f : Nat) (cat : JStr) (cont : List Char)
    (fs : List (JStr × Json)) (rest : List Char)
    (h : parseFields (f + 1) cont = some (fs, rest)) :
    parseFields (f + 2) ("\"category\":".toList ++ (jsonQuote cat ++ (',' :: cont)))
      = some (("category".toList, Json.jstr cat) :: fs, rest) := by
  show (match parseVal (f + 1) (jsonQuote cat ++ (',' :: cont)) with
        | none => none
        | some (v, r3) =>
          match skipWs r3 with
          | ',' :: r4 =>
            (match parseFields (f + 1) r4 with
             | some (fs, r5) => some (("category".toList, v) :: fs, r5)
             | none => none)
          | c :: r4 => if c = rbrace then some ([("category".toList, v)], r4) else none
          | [] => none)
      = some (("category".toList, Json.jstr cat) :: fs, rest)
  rw [parseVal_str f cat (',' :: cont)]
  show (match parseFields (f + 1) cont with
        | some (fs, r5) => some (("category".toList, Json.jstr cat) :: fs, r5)
        | none => none)
      = some (("category".toList, Json.jstr cat) :: fs, rest)
  rw [h]

theorem parseFields_title (f : Nat) (t : JStr) (cont : List Char)
    (fs : List (JStr × Json)) (rest : List Char)
    (h : parseFields (f + 1) cont = some (fs, rest)) :
    parseFields (f + 2) ("\"title\":".toList ++ (jsonQuote t ++ (',' :: cont)))
      = some (("title".toList, Json.jstr t) :: fs, rest) := by
  show (match parseVal (f + 1) (jsonQuote t ++ (',' :: cont)) with
        | none => none
        | some (v, r3) =>
          match skipWs r3 with
          | ',' :: r4 =>
            (match parseFields (f + 1) r4 with
             | some (fs, r5) => some (("title".toList, v) :: fs, r5)
             | none => none)
          | c :: r4 => if c = rbrace then some ([("title".toList, v)], r4) else none
          | [] => none)
      = some (("title".toList, Json.jstr t) :: fs, rest)
  rw [parseVal_str f t (',' :: cont)]
  show (match parseFields (f + 1) cont with
        | some (fs, r5) => some (("title".toList, Json.jstr t) :: fs, r5)
        | none => none)
      = some (("title".toList, Json.jstr t) :: fs, rest)
  rw [h]

theorem parseFields_id (f : Nat) (i : Int) (cont : List Char)
    (fs : List (JStr × Json)) (rest : List Char)
    (h : parseFields (f + 1) cont = some (fs, rest)) :
    parseFields (f + 2) ("\"id\":".toList ++ (intChars i ++ (',' :: cont)))
      = some (("id".toList, Json.jnum i) :: fs, rest) := by
  show (match parseVal (f + 1) (intChars i ++ (',' :: cont)) with
        | none => none
        | some (v, r3) =>
          match skipWs r3 with
          | ',' :: r4 =>
            (match parseFields (f + 1) r4 with
             | some (fs, r5) => some (("id".toList, v) :: fs, r5)
             | none => none)
          | c :: r4 => if c = rbrace then some ([("id".toList, v)], r4) else none
          | [] => none)
      = some (("id".toList, Json.jnum i) :: fs, rest)
  rw [parseVal_int f i (',' :: cont) rfl]
  show (match parseFields (f + 1) cont with
        | some (fs, r5) => some (("id".toList, Json.jnum i) :: fs, r5)
        | none => none)
      = some (("id".toList, Json.jnum i) :: fs, rest)
  rw [h]

theorem parseVal_printOpp (op : Opportunity) (g : Nat) (rest : List Char) :
    parseVal (g + 6) (printOpp op ++ rest) = some (encodeOpp op, rest) := by
  have hshape : printOpp op ++ rest
      = lbrace :: ("\"id\":".toList ++ (intChars op.id
        ++ (',' :: ("\"title\":".toList ++ (jsonQuote op.title
        ++ (',' :: ("\"category\":".toList ++ (jsonQuote op.category
        ++ (',' :: ("\"saved\":".toList
        ++ ((if op.saved then "true".toList else "false".toList) ++ (rbrace :: rest)))))))))))) := by
    simp [printOpp, List.append_assoc]
  have h4 : parseFields (g + 2)
      ("\"saved\":".toList ++ ((if op.saved then "true".toList else "false".toList)
        ++ (rbrace :: rest)))
      = some ([("saved".toList, Json.jbool op.saved)], rest) :=
    parseFields_saved g op.saved rest
  have h3 : parseFields (g + 3)
      ("\"category\":".toList ++ (jsonQuote op.category
        ++ (',' :: ("\"saved\":".toList ++ ((if op.saved then "true".toList else "false".toList)
          ++ (rbrace :: rest))))))
      = some (("category".toList, Json.jstr op.category)
          :: [("saved".toList, Json.jbool op.saved)], rest) :=
    parseFields_category (g + 1) op.category _ _ rest h4
  have h2 : parseFields (g + 4)
      ("\"title\":".toList ++ (jsonQuote op.title
        ++ (',' :: ("\"category\":".toList ++ (jsonQuote op.category
        ++ (',' :: ("\"saved\":".toList ++ ((if op.saved then "true".toList else "false".toList)
          ++ (rbrace :: rest)))))))))
      = some (("title".toList, Json.jstr op.title)
          :: ("category".toList, Json.jstr op.category)
          :: [("saved".toList, Json.jbool op.saved)], rest) :=
    parseFields_title (g + 2) op.title _ _ rest h3
  have h1 : parseFields (g + 5)
      ("\"id\":".toList ++ (intChars op.id
        ++ (',' :: ("\"title\":".toList ++ (jsonQuote op.title
        ++ (',' :: ("\"category\":".toList ++ (jsonQuote op.category
        ++ (',' :: ("\"saved\":".toList
        ++ ((if op.saved then "true".toList else "false".toList) ++ (rbrace :: rest))))))))))))
      = some (("id".toList, Json.jnum op.id)
          :: ("title".toList, Json.jstr op.title)
          :: ("category".toList, Json.jstr op.category)
          :: [("saved".toList, Json.jbool op.saved)], rest) :=
    parseFields_id (g + 3) op.id _ _ rest h2
  rw [hshape]
  show (match parseFields (g + 5)
          ("\"id\":".toList ++ (intChars op.id
            ++ (',' :: ("\"title\":".toList ++ (jsonQuote op.title
            ++ (',' :: ("\"category\":".toList ++ (jsonQuote op.category
            ++ (',' :: ("\"saved\":".toList
            ++ ((if op.saved then "true".toList else "false".toList)
              ++ (rbrace :: rest)))))))))))) with
        | some (fs, r'') => some (Json.jobj fs, r'')
        | none => none)
      = some (encodeOpp op, rest)
  rw [h1]
  rfl

theorem parseItems_printItems :
    ∀ (L : List Opportunity) (f : Nat) (rest : List Char), L ≠ [] →
      7 * L.length + 7 ≤ f →
      parseItems f (printItems L ++ ']' :: rest) = some (L.map encodeOpp, rest) := by
  intro L
  induction L with
  | nil => intro f rest h _; exact absurd rfl h
  | cons op L ih =>
    intro f rest _ hf
    have hlen : (op :: L).length = L.length + 1 := List.length_cons op L
    obtain ⟨f', rfl⟩ : ∃ f', f = f' + 1 := ⟨f - 1, by omega⟩
    cases L with
    | nil =>
      rw [show printItems [op] = printOpp op from rfl]
      show (match parseVal f' (printOpp op ++ ']' :: rest) with
            | none => none
            | some (v, r) =>
              match skipWs r with
              | ',' :: r' =>
                (match parseItems f' r' with
                 | some (vs, r'') => some (v :: vs, r'')
                 | none => none)
              | ']' :: r' => some ([v], r')
              | _ => none)
          = some ([op].map encodeOpp, rest)
      obtain ⟨g, rfl⟩ : ∃ g, f' = g + 6 := ⟨f' - 6, by omega⟩
      rw [parseVal_printOpp op g (']' :: rest)]
      rfl
    | cons op2 L2 =>
      have hshape : printItems (op :: op2 :: L2) ++ ']' :: rest
          = printOpp op ++ (',' :: (printItems (op2 :: L2) ++ ']' :: rest)) := by
        simp [printItems]
      rw [hshape]
      show (match parseVal f' (printOpp op ++ (',' :: (printItems (op2 :: L2) ++ ']' :: rest))) with
            | none => none
            | some (v, r) =>
              match skipWs r with
              | ',' :: r' =>
                (match parseItems f' r' with
                 | some (vs, r'') => some (v :: vs, r'')
                 | none => none)
              | ']' :: r' => some ([v], r')
              | _ => none)
          = some ((op :: op2 :: L2).map encodeOpp, rest)
      obtain ⟨g, rfl⟩ : ∃ g, f' = g + 6 := ⟨f' - 6, by omega⟩
      rw [parseVal_printOpp op g (',' :: (printItems (op2 :: L2) ++ ']' :: rest))]
      show (match parseItems (g + 6) (printItems (op2 :: L2) ++ ']' :: rest) with
            | some (vs, r'') => some (encodeOpp op :: vs, r'')
            | none => none)
          = some ((op :: op2 :: L2).map encodeOpp, rest)
      have hlen2 : (op2 :: L2).length = L2.length + 1 := List.length_cons op2 L2
      rw [ih (g + 6) rest (by simp) (by omega)]
      rfl

theorem printOpp_length (op : Opportunity) : 12 ≤ (printOpp op).length := by
  have h1 : ("\"id\":".toList).length = 5 := rfl
  have h2 : ("\"title\":".toList).length = 8 := rfl
  have h3 : ("\"category\":".toList).length = 11 := rfl
  have h4 : ("\"saved\":".toList).length = 8 := rfl
  simp only [printOpp, List.length_cons, List.length_append, h1, h2, h3, h4]
  omega

theorem printItems_length :
    ∀ L : List Opportunity, L ≠ [] → 7 * L.length + 5 ≤ (printItems L).length := by
  intro L
  induction L with
  | nil => intro h; exact absurd rfl h
  | cons op L ih =>
    intro _
    cases L with
    | nil =>
      have := printOpp_length op
      simpa [printItems] using this
    | cons op2 L2 =>
      have hrec := ih (by simp)
      have hop := printOpp_length op
      have hshape : printItems (op :: op2 :: L2) = printOpp op ++ ',' :: printItems (op2 :: L2) :=
        rfl
      rw [hshape]
      simp only [List.length_append, List.length_cons] at hrec hop ⊢
      omega

theorem printItems_cons_head (op : Opportunity) (L : List Opportunity) :
    ∃ X, printItems (op :: L) = lbrace :: X := by
  cases L with
  | nil => exact ⟨_, rfl⟩
  | cons b t =>
    have h : printItems (op :: b :: t) = printOpp op ++ ',' :: printItems (b :: t) := rfl
    rw [h, printOpp, List.cons_append]
    exact ⟨_, rfl⟩

theorem jsonParse_stringify (L : List Opportunity) :
    jsonParse (jsonStringifyOpps L) = some (Json.jarr (L.map encodeOpp)) := by
  cases L with
  | nil => rfl
  | cons op L2 =>
    obtain ⟨X, hX⟩ := printItems_cons_head op L2
    have hbody : printItems (op :: L2) ++ [']'] = lbrace :: (X ++ [']']) := by
      rw [hX]
      rfl
    show (match parseVal (('[' :: (printItems (op :: L2) ++ [']'])).length + 1)
            ('[' :: (printItems (op :: L2) ++ [']'])) with
          | some (v, r) => if skipWs r = [] then some v else none
          | none => none)
        = some (Json.jarr ((op :: L2).map encodeOpp))
    generalize hN : ('[' :: (printItems (op :: L2) ++ [']'])).length = N
    have hlen : 7 * (op :: L2).length + 7 ≤ N := by
      rw [← hN]
      have := printItems_length (op :: L2) (by simp)
      simp only [List.length_cons, List.length_append] at this ⊢
      omega
    have hitems : parseItems N (printItems (op :: L2) ++ ']' :: [])
        = some ((op :: L2).map encodeOpp, []) :=
      parseItems_printItems (op :: L2) N [] (by simp) hlen
    have hval : parseVal (N + 1) ('[' :: (printItems (op :: L2) ++ [']']))
        = some (Json.jarr ((op :: L2).map encodeOpp), []) := by
      conv_lhs => rw [hbody]
      show (match parseItems N (lbrace :: (X ++ [']'])) with
            | some (xs, r') => some (Json.jarr xs, r')
            | none => none)
          = some (Json.jarr ((op :: L2).map encodeOpp), [])
      rw [← hbody, hitems]
    rw [hval]
    rfl

theorem decodeOpp_encodeOpp (op : Opportunity) : decodeOpp (encodeOpp op) = some op := rfl

theorem decodeOppList_map (L : List Opportunity) :
    decodeOppList (L.map encodeOpp) = some L := by
  induction L with
  | nil => rfl
  | cons op L ih =>
    show (match decodeOpp (encodeOpp op), decodeOppList (L.map encodeOpp) with
          | some o, some l => some (o :: l)
          | _, _ => none) = some (op :: L)
    rw [decodeOpp_encodeOpp, ih]

/-! ### Lemmas on the store operations -/

theorem saveAndRender_eq (s : AppState) :
    saveAndRender s
      = { s with
          storage := some (jsonStringifyOpps s.opportunities),
          rendered := renderView s.opportunities s.currentFilter } := rfl

theorem handleAdd_empty {s : AppState} (h : jsTrim s.titleInput = []) (now : Int) :
    handleAddOpportunity now s = showError errEmptyTitle s := by
  simp [handleAddOpportunity, h]

theorem handleAdd_success {s : AppState} (h : jsTrim s.titleInput ≠ []) (now : Int) :
    handleAddOpportunity now s
      = saveAndRender
          { s with
            errorVisible := false,
            opportunities := s.opportunities ++ [⟨now, jsTrim s.titleInput, s.typeInput, false⟩],
            titleInput := [] } := by
  simp [handleAddOpportunity, h, hideError]

theorem toggle_found {s : AppState} {idv : Int} {op : Opportunity}
    (h : s.opportunities.find? (fun op => op.id = idv) = some op) :
    toggleSavedStatus idv s
      = saveAndRender { s with opportunities := toggleFirst idv s.opportunities } := by
  simp [toggleSavedStatus, h]

theorem toggle_missing {s : AppState} {idv : Int}
    (h : s.opportunities.find? (fun op => op.id = idv) = none) :
    toggleSavedStatus idv s = s := by
  simp [toggleSavedStatus, h]

/-- The state addressed by a pending add of title `A`, category `X`. -/
def addReadyState : AppState :=
  { initialState with titleInput := ['A'], typeInput := ['X'] }

/-- The state addressed by a whitespace-only pending title. -/
def emptyTitleState : AppState :=
  { initialState with titleInput := [' ', ' '] }

/-- A state holding one unsaved record with id 7. -/
def togglableState : AppState :=
  { initialState with opportunities := [⟨7, ['A'], ['X'], false⟩] }

/-- Claim C3: an add with a whitespace-only title is rejected: the list, the
persisted blob and the rendered view are unchanged and the error region shows
the validation message; an add with a non-blank trimmed title appends exactly
one record (the trimmed title, the selected category, id equal to the clock
value, saved false) at the end, persists the new list, re-renders it, and
hides the error region. -/
theorem claim3_add_validation (s : AppState) (now : Int) :
    (jsTrim s.titleInput = [] →
      (handleAddOpportunity now s).opportunities = s.opportunities
      ∧ (handleAddOpportunity now s).storage = s.storage
      ∧ (handleAddOpportunity now s).rendered = s.rendered
      ∧ (handleAddOpportunity now s).errorVisible = true
      ∧ (handleAddOpportunity now s).errorText = errEmptyTitle)
    ∧ (jsTrim s.titleInput ≠ [] →
      (handleAddOpportunity now s).opportunities
        = s.opportunities ++ [⟨now, jsTrim s.titleInput, s.typeInput, false⟩]
      ∧ (handleAddOpportunity now s).storage
        = some (jsonStringifyOpps
            (s.opportunities ++ [⟨now, jsTrim s.titleInput, s.typeInput, false⟩]))
      ∧ (handleAddOpportunity now s).rendered
        = renderView (s.opportunities ++ [⟨now, jsTrim s.titleInput, s.typeInput, false⟩])
            s.currentFilter
      ∧ (handleAddOpportunity now s).errorVisible = false) := by
  by_cases h : jsTrim s.titleInput = []
  · refine ⟨fun _ => ?_, fun hne => absurd h hne⟩
    rw [handleAdd_empty h now]
    exact ⟨rfl, rfl, rfl, rfl, rfl⟩
  · refine ⟨fun he => absurd he h, fun _ => ?_⟩
    rw [handleAdd_success h now]
    exact ⟨rfl, rfl, rfl, rfl⟩

/-- Claim C3, witnessed: a blank title (two spaces) leaves the list unchanged
and shows the error; the title `A` appends one record and hides the error. -/
theorem claim3_witness :
    ((handleAddOpportunity 5 emptyTitleState).opportunities = emptyTitleState.opportunities
      ∧ (handleAddOpportunity 5 emptyTitleState).errorVisible = true)
    ∧ ((handleAddOpportunity 5 addReadyState).opportunities
        = addReadyState.opportunities
          ++ [⟨5, jsTrim addReadyState.titleInput, addReadyState.typeInput, false⟩]
      ∧ (handleAddOpportunity 5 addReadyState).errorVisible = false) := by
  constructor
  · have h := (claim3_add_validation emptyTitleState 5).1 (by decide)
    exact ⟨h.1, h.2.2.2.1⟩
  · have h := (claim3_add_validation addReadyState 5).2 (by decide)
    exact ⟨h.1, h.2.2.2⟩

/-- Claim C1: after a successful mutating operation (an add with a non-blank
title, or a toggle on a present id) the persisted blob is exactly the
serialization of the current in-memory list, and the rendered view is the
view of that same list and filter: the two observable surfaces agree. -/
theorem claim1_sync_persist_render (s : AppState) (now idv : Int) :
    (jsTrim s.titleInput ≠ [] →
      (handleAddOpportunity now s).storage
        = some (jsonStringifyOpps (handleAddOpportunity now s).opportunities)
      ∧ (handleAddOpportunity now s).rendered
        = renderView (handleAddOpportunity now s).opportunities
            (handleAddOpportunity now s).currentFilter)
    ∧ ((∃ op ∈ s.opportunities, op.id = idv) →
      (toggleSavedStatus idv s).storage
        = some (jsonStringifyOpps (toggleSavedStatus idv s).opportunities)
      ∧ (toggleSavedStatus idv s).rendered
        = renderView (toggleSavedStatus idv s).opportunities
            (toggleSavedStatus idv s).currentFilter) := by
  constructor
  · intro h
    rw [handleAdd_success h now]
    exact ⟨rfl, rfl⟩
  · intro hex
    cases hfind : s.opportunities.find? (fun op => op.id = idv) with
    | none =>
      rw [List.find?_eq_none] at hfind
      obtain ⟨op, hmem, hid⟩ := hex
      exact absurd (by simpa using hfind op hmem) (by simp [hid])
    | some op' =>
      rw [toggle_found hfind]
      exact ⟨rfl, rfl⟩

/-- Claim C1, witnessed: a concrete add and a concrete toggle, each leaving
the blob equal to the serialization of the list it rendered. -/
theorem claim1_witness :
    ((handleAddOpportunity 5 addReadyState).storage
      = some (jsonStringifyOpps (handleAddOpportunity 5 addReadyState).opportunities))
    ∧ ((toggleSavedStatus 7 togglableState).storage
      = some (jsonStringifyOpps (toggleSavedStatus 7 togglableState).opportunities)) := by
  constructor
  · exact ((claim1_sync_persist_render addReadyState 5 0).1 (by decide)).1
  · exact ((claim1_sync_persist_render togglableState 5 7).2
      ⟨⟨7, ['A'], ['X'], false⟩, by decide, rfl⟩).1

/-- Claim C7: the rendered counter text is built from the entire list: the
total is the length of the list and the saved count is the number of records
with saved true, and the text does not depend on the active filter. -/
theorem claim7_counter (l : List Opportunity) (filter other : JStr) :
    (renderView l filter).counter
      = natDigits l.length ++ " opportunities (".toList
        ++ natDigits (l.countP (fun op => op.saved)) ++ " saved)".toList
    ∧ (renderView l filter).counter = (renderView l other).counter := by
  constructor
  · show updateCounter l
      = natDigits l.length ++ " opportunities (".toList
        ++ natDigits (l.countP (fun op => op.saved)) ++ " saved)".toList
    rw [List.countP_eq_length_filter]
    rfl
  · rfl

/-- Claim C10: neither a toggle (present id or not) nor a filter change
touches the error region: its visibility and its text are those of the state
before; only the add operation writes to them. -/
theorem claim10_error_frame (s : AppState) (idv : Int) (value : JStr) :
    (toggleSavedStatus idv s).errorVisible = s.errorVisible
    ∧ (toggleSavedStatus idv s).errorText = s.errorText
    ∧ (setFilterClick value s).errorVisible = s.errorVisible
    ∧ (setFilterClick value s).errorText = s.errorText := by
  refine ⟨?_, ?_, rfl, rfl⟩ <;>
    (cases hfind : s.opportunities.find? (fun op => op.id = idv) with
     | none => rw [toggle_missing hfind]
     | some op' => rw [toggle_found hfind, saveAndRender_eq])

theorem toggleFirst_append {idv : Int} (pre : List Opportunity) (op : Opportunity)
    (post : List Opportunity) (hop : op.id = idv) (hpre : ∀ p ∈ pre, p.id ≠ idv) :
    toggleFirst idv (pre ++ op :: post) = pre ++ { op with saved := !op.saved } :: post := by
  induction pre with
  | nil => simp [toggleFirst, hop]
  | cons p t ih =>
    have hp : p.id ≠ idv := hpre p (by simp)
    have ht := ih fun q hq => hpre q (by simp [hq])
    show toggleFirst idv ((p :: t) ++ op :: post) = _
    rw [List.cons_append]
    show (if p.id = idv then { p with saved := !p.saved } :: (t ++ op :: post)
          else p :: toggleFirst idv (t ++ op :: post)) = _
    rw [if_neg hp, ht, List.cons_append]

theorem toggleFirst_toggleFirst (idv : Int) :
    ∀ l : List Opportunity, toggleFirst idv (toggleFirst idv l) = l := by
  intro l
  induction l with
  | nil => rfl
  | cons op rest ih =>
    obtain ⟨oid, ot, oc, os⟩ := op
    by_cases h : oid = idv
    · simp [toggleFirst, h, Bool.not_not]
    · simp [toggleFirst, h, ih]

theorem toggleFirst_map_id (idv : Int) :
    ∀ l : List Opportunity, (toggleFirst idv l).map (fun op => op.id) = l.map (fun op => op.id) := by
  intro l
  induction l with
  | nil => rfl
  | cons op rest ih =>
    by_cases h : op.id = idv
    · simp [toggleFirst, h]
    · simp [toggleFirst, h, ih]

theorem toggle_toggle_opportunities (s : AppState) (idv : Int) :
    (toggleSavedStatus idv (toggleSavedStatus idv s)).opportunities = s.opportunities := by
  cases hfind : s.opportunities.find? (fun op => op.id = idv) with
  | none => rw [toggle_missing hfind, toggle_missing hfind]
  | some op' =>
    rw [toggle_found hfind, saveAndRender_eq]
    have hmem : ∃ q ∈ toggleFirst idv s.opportunities, q.id = idv := by
      have h1 := List.find?_some hfind
      have h2 := List.mem_of_find?_eq_some hfind
      have hin : idv ∈ (toggleFirst idv s.opportunities).map (fun op => op.id) := by
        rw [toggleFirst_map_id]
        exact List.mem_map.mpr ⟨op', h2, by simpa using h1⟩
      obtain ⟨q, hq, hqid⟩ := List.mem_map.mp hin
      exact ⟨q, hq, hqid⟩
    cases hfind2 : (toggleFirst idv s.opportunities).find? (fun op => op.id = idv) with
    | none =>
      rw [List.find?_eq_none] at hfind2
      obtain ⟨q, hq, hqid⟩ := hmem
      exact absurd (by simpa using hfind2 q hq) (by simp [hqid])
    | some q' =>
      rw [toggle_found hfind2, saveAndRender_eq]
      show toggleFirst idv (toggleFirst idv s.opportunities) = s.opportunities
      exact toggleFirst_toggleFirst idv s.opportunities

/-- Claim C4: a toggle on a present id flips the saved flag of the first (in
the unique-id regime, the only) record with that id and persists and renders
the updated list; a toggle on an absent id leaves the whole state untouched,
error region included; toggling the same id twice restores the original
list. -/
theorem claim4_toggle_semantics (s : AppState) (idv : Int) :
    (∀ pre op post, s.opportunities = pre ++ op :: post → op.id = idv →
        (∀ p ∈ pre, p.id ≠ idv) →
      (toggleSavedStatus idv s).opportunities = pre ++ { op with saved := !op.saved } :: post
      ∧ (toggleSavedStatus idv s).storage
        = some (jsonStringifyOpps (pre ++ { op with saved := !op.saved } :: post))
      ∧ (toggleSavedStatus idv s).rendered
        = renderView (pre ++ { op with saved := !op.saved } :: post) s.currentFilter)
    ∧ ((∀ op ∈ s.opportunities, op.id ≠ idv) → toggleSavedStatus idv s = s)
    ∧ (toggleSavedStatus idv (toggleSavedStatus idv s)).opportunities = s.opportunities := by
  refine ⟨?_, ?_, toggle_toggle_opportunities s idv⟩
  · intro pre op post hdecomp hop hpre
    cases hfind : s.opportunities.find? (fun op => op.id = idv) with
    | none =>
      rw [List.find?_eq_none] at hfind
      have hopmem : op ∈ s.opportunities := by rw [hdecomp]; simp
      exact absurd (by simpa using hfind op hopmem) (by simp [hop])
    | some op'' =>
      rw [toggle_found hfind]
      have htog : toggleFirst idv s.opportunities
          = pre ++ { op with saved := !op.saved } :: post := by
        rw [hdecomp]
        exact toggleFirst_append pre op post hop hpre
      refine ⟨?_, ?_, ?_⟩
      · show toggleFirst idv s.opportunities = _
        exact htog
      · show some (jsonStringifyOpps (toggleFirst idv s.opportunities)) = _
        rw [htog]
      · show renderView (toggleFirst idv s.opportunities) s.currentFilter = _
        rw [htog]
  · intro hall
    exact toggle_missing (List.find?_eq_none.mpr fun x hx => by simp [hall x hx])

/-- Claim C4, witnessed: on a list holding the single unsaved record with
id 7, toggle(7) flips it to saved, toggle(99) is the identity, and toggling 7
twice restores the list. -/
theorem claim4_witness :
    (toggleSavedStatus 7 togglableState).opportunities = [⟨7, ['A'], ['X'], true⟩]
    ∧ toggleSavedStatus 99 togglableState = togglableState
    ∧ (toggleSavedStatus 7 (toggleSavedStatus 7 togglableState)).opportunities
      = togglableState.opportunities := by
  refine ⟨?_, ?_, ?_⟩
  · exact ((claim4_toggle_semantics togglableState 7).1 [] ⟨7, ['A'], ['X'], false⟩ []
      rfl rfl (by decide)).1
  · exact (claim4_toggle_semantics togglableState 99).2.1 (by decide)
  · exact (claim4_toggle_semantics togglableState 7).2.2

theorem renderLoop_spec :
    ∀ (v : List Opportunity) (a s : List Card),
      renderLoop v (a, s)
        = (a ++ (v.filter (fun op => !op.saved)).map createOpportunityCard,
           s ++ (v.filter (fun op => op.saved)).map createOpportunityCard) := by
  intro v
  induction v with
  | nil => intro a s; simp [renderLoop]
  | cons op rest ih =>
    intro a s
    by_cases h : op.saved
    · simp [renderLoop, h, ih]
    · simp [renderLoop, h, ih]

/-- Claim C6: the rendered containers partition the visible records: the
visible list is the category-filtered list in original order (everything when
the filter is all), a sublist of the full list; the available container holds
exactly the cards of the visible unsaved records and the saved container
exactly those of the visible saved records, each in visible order; every
visible record lands in exactly one container, and together the two
partitions are a permutation of (here: a disjoint split of) the visible
list. -/
theorem claim6_render_partition (l : List Opportunity) (filter : JStr) :
    (renderView l filter).availableList
      = ((l.filter (visibleFilter filter)).filter (fun op => !op.saved)).map
          createOpportunityCard
    ∧ (renderView l filter).savedList
      = ((l.filter (visibleFilter filter)).filter (fun op => op.saved)).map
          createOpportunityCard
    ∧ (l.filter (visibleFilter filter)).Sublist l
    ∧ ((l.filter (visibleFilter filter)).filter (fun op => !op.saved)).Sublist
        (l.filter (visibleFilter filter))
    ∧ ((l.filter (visibleFilter filter)).filter (fun op => op.saved)).Sublist
        (l.filter (visibleFilter filter))
    ∧ (∀ op ∈ l.filter (visibleFilter filter),
        (op ∈ (l.filter (visibleFilter filter)).filter (fun op => !op.saved)
          ↔ op.saved = false)
        ∧ (op ∈ (l.filter (visibleFilter filter)).filter (fun op => op.saved)
          ↔ op.saved = true))
    ∧ ((l.filter (visibleFilter filter)).filter (fun op => !op.saved)
        ++ (l.filter (visibleFilter filter)).filter (fun op => op.saved)).Perm
        (l.filter (visibleFilter filter)) := by
  refine ⟨?_, ?_, List.filter_sublist l, List.filter_sublist _, List.filter_sublist _,
    ?_, ?_⟩
  · show (renderLoop (l.filter (visibleFilter filter)) ([], [])).1 = _
    rw [renderLoop_spec]
    simp
  · show (renderLoop (l.filter (visibleFilter filter)) ([], [])).2 = _
    rw [renderLoop_spec]
    simp
  · intro op hop
    constructor
    · rw [List.mem_filter]
      constructor
      · rintro ⟨-, hsav⟩
        simpa using hsav
      · intro hsav
        exact ⟨hop, by simp [hsav]⟩
    · rw [List.mem_filter]
      constructor
      · rintro ⟨-, hsav⟩
        exact hsav
      · intro hsav
        exact ⟨hop, hsav⟩
  · have h := List.filter_append_perm (fun op => !op.saved) (l.filter (visibleFilter filter))
    simpa [Bool.not_not] using h

theorem htmlTextDecode_escapeChar (c : Char) (r : List Char) :
    htmlTextDecode (escapeHTMLChar c ++ r) = c :: htmlTextDecode r := by
  rw [escapeHTMLChar]
  by_cases h1 : c = '&'
  · subst h1
    rw [if_pos rfl]
    rfl
  · rw [if_neg h1]
    by_cases h2 : c = '<'
    · subst h2
      rw [if_pos rfl]
      rfl
    · rw [if_neg h2]
      by_cases h3 : c = '>'
      · subst h3
        rw [if_pos rfl]
        rfl
      · rw [if_neg h3]
        show htmlTextDecode (c :: r) = c :: htmlTextDecode r
        rw [htmlTextDecode.eq_def]
        split
        · rename_i heq; exact absurd (List.head_eq_of_cons_eq heq) h1
        · rename_i heq; exact absurd (List.head_eq_of_cons_eq heq) h1
        · rename_i heq; exact absurd (List.head_eq_of_cons_eq heq) h1
        · rename_i heq
          rw [← List.head_eq_of_cons_eq heq, ← List.tail_eq_of_cons_eq heq]
        · rename_i heq; exact absurd heq (by simp)

theorem htmlTextDecode_escapeHTML (s : JStr) : htmlTextDecode (escapeHTML s) = s := by
  induction s with
  | nil => rfl
  | cons c t ih =>
    show htmlTextDecode (escapeHTMLChar c ++ t.flatMap escapeHTMLChar) = c :: t
    rw [htmlTextDecode_escapeChar]
    rw [show htmlTextDecode (t.flatMap escapeHTMLChar) = t from ih]

theorem escapeHTML_no_markup (s : JStr) : ∀ c ∈ escapeHTML s, c ≠ '<' ∧ c ≠ '>' := by
  intro c hc
  obtain ⟨x, hx, hcx⟩ := List.mem_flatMap.mp hc
  rw [escapeHTMLChar] at hcx
  by_cases h1 : x = '&'
  · rw [if_pos h1] at hcx
    have : c = '&' ∨ c = 'a' ∨ c = 'm' ∨ c = 'p' ∨ c = ';' := by simpa using hcx
    rcases this with h | h | h | h | h <;> (subst h; exact ⟨by decide, by decide⟩)
  · rw [if_neg h1] at hcx
    by_cases h2 : x = '<'
    · rw [if_pos h2] at hcx
      have : c = '&' ∨ c = 'l' ∨ c = 't' ∨ c = ';' := by simpa using hcx
      rcases this with h | h | h | h <;> (subst h; exact ⟨by decide, by decide⟩)
    · rw [if_neg h2] at hcx
      by_cases h3 : x = '>'
      · rw [if_pos h3] at hcx
        have : c = '&' ∨ c = 'g' ∨ c = 't' ∨ c = ';' := by simpa using hcx
        rcases this with h | h | h | h <;> (subst h; exact ⟨by decide, by decide⟩)
      · rw [if_neg h3] at hcx
        have : c = x := by simpa using hcx
        subst this
        exact ⟨h2, h3⟩

/-- Claim C9: every card embeds the title and the category only through
escapeHTML; the escaped text contains no angle bracket, so it can form no
tag, and the text the browser displays for it is exactly the original
string; in particular a script-tag title is shown as its literal characters.
-/
theorem claim9_escaping (op : Opportunity) :
    (createOpportunityCard op).html
      = "\n        <h3>".toList ++ escapeHTML op.title
        ++ "</h3>\n        <p class=\"card-details\">Category: ".toList
        ++ escapeHTML op.category
        ++ "</p>\n        <button class=\"".toList
        ++ (if op.saved then "card-action-btn remove-btn".toList
            else "card-action-btn save-btn".toList)
        ++ "\">".toList ++ (if op.saved then "Remove".toList else "Save".toList)
        ++ "</button>\n    ".toList
    ∧ htmlTextDecode (escapeHTML op.title) = op.title
    ∧ htmlTextDecode (escapeHTML op.category) = op.category
    ∧ (∀ c ∈ escapeHTML op.title, c ≠ '<' ∧ c ≠ '>')
    ∧ (∀ c ∈ escapeHTML op.category, c ≠ '<' ∧ c ≠ '>')
    ∧ escapeHTML "<script>alert(1)</script>".toList
      = "&lt;script&gt;alert(1)&lt;/script&gt;".toList :=
  ⟨rfl, htmlTextDecode_escapeHTML op.title, htmlTextDecode_escapeHTML op.category,
    escapeHTML_no_markup op.title, escapeHTML_no_markup op.category, rfl⟩

theorem handleAdd_opportunities (now : Int) (s : AppState) :
    (handleAddOpportunity now s).opportunities
      = if jsTrim s.titleInput = [] then s.opportunities
        else s.opportunities ++ [⟨now, jsTrim s.titleInput, s.typeInput, false⟩] := by
  by_cases h : jsTrim s.titleInput = []
  · rw [handleAdd_empty h, if_pos h]
    rfl
  · rw [handleAdd_success h, if_neg h]
    rfl

theorem handleAdd_opportunities_inputs (now : Int) (s : AppState) (t ty : JStr) :
    (handleAddOpportunity now { s with titleInput := t, typeInput := ty }).opportunities
      = if jsTrim t = [] then s.opportunities
        else s.opportunities ++ [⟨now, jsTrim t, ty, false⟩] := by
  rw [handleAdd_opportunities]

theorem runAdds_opportunities :
    ∀ (cmds : List AddCmd) (s : AppState),
      (runAdds cmds s).opportunities
        = s.opportunities
          ++ (cmds.filter fun c => !(jsTrim c.title).isEmpty).map
              (fun c => ⟨c.now, jsTrim c.title, c.category, false⟩) := by
  intro cmds
  induction cmds with
  | nil => intro s; simp [runAdds]
  | cons c cmds ih =>
    intro s
    have hstep : runAdds (c :: cmds) s
        = runAdds cmds
            (handleAddOpportunity c.now
              { s with titleInput := c.title, typeInput := c.category }) := rfl
    rw [hstep, ih, handleAdd_opportunities_inputs]
    by_cases h : jsTrim c.title = []
    · rw [if_pos h]
      have hemp : (jsTrim c.title).isEmpty = true := by rw [h]; rfl
      simp [List.filter_cons, hemp]
    · rw [if_neg h]
      have hne : (jsTrim c.title).isEmpty = false := by
        cases hjt : jsTrim c.title with
        | nil => exact absurd hjt h
        | cons a b => rfl
      simp [List.filter_cons, hne, List.append_assoc]

/-- Claim C8 (amended): provided the clock readings of successive add clicks
are strictly increasing (Date.now strictly grows between adds), the record
ids are strictly increasing in list order and hence pairwise distinct. The
claim as frozen fails on the code: ids come from Date.now alone, so two adds
within one millisecond share an id (see the counterexample). -/
theorem claim8_ids_strict_mono (cmds : List AddCmd)
    (h : (cmds.map fun c => c.now).Pairwise (· < ·)) :
    (((runAdds cmds initialState).opportunities.map fun op => op.id).Pairwise (· < ·))
    ∧ (((runAdds cmds initialState).opportunities.map fun op => op.id).Nodup) := by
  have hids : (runAdds cmds initialState).opportunities.map (fun op => op.id)
      = (cmds.filter fun c => !(jsTrim c.title).isEmpty).map fun c => c.now := by
    rw [runAdds_opportunities cmds initialState]
    show (((cmds.filter fun c => !(jsTrim c.title).isEmpty).map
        (fun c => (⟨c.now, jsTrim c.title, c.category, false⟩ : Opportunity))).map
        fun op => op.id) = _
    rw [List.map_map]
    rfl
  rw [hids]
  have hsub : ((cmds.filter fun c => !(jsTrim c.title).isEmpty).map fun c => c.now).Sublist
      (cmds.map fun c => c.now) :=
    (List.filter_sublist cmds).map _
  have hp := h.sublist hsub
  exact ⟨hp, hp.imp fun hlt => ne_of_lt hlt⟩

/-- Claim C8, witnessed: two valid adds at clock readings 1 then 2 produce
ids in strictly increasing order. -/
theorem claim8_witness :
    ((([⟨1, ['A'], ['X']⟩, ⟨2, ['B'], ['X']⟩] : List AddCmd).map fun c => c.now).Pairwise (· < ·))
    ∧ (((runAdds [⟨1, ['A'], ['X']⟩, ⟨2, ['B'], ['X']⟩] initialState).opportunities.map
        fun op => op.id).Pairwise (· < ·)) := by
  have hyp : (([⟨1, ['A'], ['X']⟩, ⟨2, ['B'], ['X']⟩] : List AddCmd).map
      fun c => c.now).Pairwise (· < ·) := by
    simp [List.pairwise_cons]
  exact ⟨hyp, (claim8_ids_strict_mono _ hyp).1⟩

/-- Claim C8, refuted as frozen: two valid adds within the same millisecond
(both Date.now readings are 5) leave the list with two records that share
id 5, so the ids are not pairwise distinct. -/
theorem claim8_counterexample :
    ¬ (((runAdds [⟨5, ['A'], ['X']⟩, ⟨5, ['B'], ['X']⟩] initialState).opportunities.map
        fun op => op.id).Nodup) := by decide

/-- Claim C2, evaluated against the code: with nothing stored, load yields
the empty list; but when the stored text is a lone opening brace, JSON.parse
throws and loadFromStorage has no exception handler, so initialization
crashes instead of completing with an empty list as the claim requires. -/
theorem claim2_load_crash :
    loadFromStorage none = LoadOutcome.ok []
    ∧ loadFromStorage (some [lbrace]) = LoadOutcome.thrown :=
  ⟨rfl, rfl⟩

/-- Claim C5: the storage round-trip is the identity: parsing the serialized
text of any opportunity list (arbitrary integer ids, arbitrary title and
category strings, both saved flags) yields exactly that list, order, fields
and values preserved. -/
theorem claim5_roundtrip (L : List Opportunity) :
    loadFromStorage (some (jsonStringifyOpps L)) = LoadOutcome.ok L := by
  show (match jsonParse (jsonStringifyOpps L) with
        | none => LoadOutcome.thrown
        | some v =>
          match decodeOpps v with
          | some l => LoadOutcome.ok l
          | none => LoadOutcome.illtyped v) = LoadOutcome.ok L
  rw [jsonParse_stringify]
  show (match decodeOppList (L.map encodeOpp) with
        | some l => LoadOutcome.ok l
        | none => LoadOutcome.illtyped (Json.jarr (L.map encodeOpp))) = LoadOutcome.ok L
  rw [decodeOppList_map]

end OppBoard
